import Mathlib

/-!
Verification of the manifest-consistency core of the WebDangThanh image
library application.

Two layers are embedded, both translated from the TypeScript source:

1. a JSON-level model of the service function getManifest
   (src/services/githubService.ts, lines 75-107), used for the claims about
   manifest loading, bootstrap fallback and legacy migration;

2. a trace model of the mutation workflows of the settings component
   (src/unnamed/part_003: updateAndPushManifest, handleUploadComplete,
   handleDeleteImage, handleDeleteAlbum, handleRenameAlbum).  Remote calls
   are answered by an oracle (`Env`) indexed by the position of the call in
   the sequence of requests the workflow issues, and every workflow returns
   its outcome together with the ordered list of remote operations it
   issued.  This makes statements such as "no remote call is issued" or
   "the manifest file is only written after every blob upload" provable.
-/

/-! ## JSON layer (githubService.ts) -/

/-- JSON values as produced by JSON.parse.  Numbers are modelled by `Int`;
no claim performs arithmetic on them. -/
inductive Json where
  | null
  | bool (b : Bool)
  | num (n : Int)
  | str (s : String)
  | arr (elems : List Json)
  | obj (fields : List (String × Json))

/-- Field lookup in a parsed JSON object.  JSON.parse keeps the last of
duplicate keys, so the association lists reaching this function have unique
keys; first-match lookup coincides with object indexing on them. -/
def lookupField (fields : List (String × Json)) (key : String) : Option Json :=
  match fields with
  | [] => none
  | (k, v) :: rest => if k = key then some v else lookupField rest key

/-- JavaScript property access `j[key]`: `none` models `undefined`.
Property access on primitives yields undefined; access on `null` throws,
which callers handle separately. -/
def jsGet (j : Json) (key : String) : Option Json :=
  match j with
  | .obj fields => lookupField fields key
  | _ => none

/-- JavaScript truthiness of a possibly-undefined value: undefined, null,
false, 0 and the empty string are falsy; arrays and objects are always
truthy. -/
def jsTruthy : Option Json → Bool
  | none => false
  | some .null => false
  | some (.bool b) => b
  | some (.num n) => n != 0
  | some (.str s) => s != ""
  | some (.arr _) => true
  | some (.obj _) => true

/-- The possible outcomes of the remote read performed by getManifest
(`makeRequest` on the manifest path, githubService.ts lines 24-42 and 80):
a 404 makes makeRequest return null; any other non-ok response or a network
failure throws; otherwise the base64 content is decoded and parsed, which
either throws (`undecodable`) or yields a JSON value. -/
inductive ManifestReadOutcome where
  | notFound
  | requestError (msg : String)
  | undecodable
  | decoded (parsed : Json)

/-- The bootstrap manifest `{ albums: { normal: [] } }`
(githubService.ts line 77). -/
def defaultManifestJson : Json := .obj [("albums", .obj [("normal", .arr [])])]

/-- Embeds getManifest (githubService.ts lines 75-107).  The whole body is
wrapped in try/catch returning the default manifest, so a request error, an
undecodable body, and property access on a parsed `null` all fall back to
the bootstrap value.  A parsed `images` array triggers the legacy
migration; otherwise a falsy `albums` field selects the bootstrap value and
a truthy one lets the parsed value through unvalidated (the source merely
casts it). -/
def getManifest : ManifestReadOutcome → Json
  | .notFound => defaultManifestJson
  | .requestError _ => defaultManifestJson
  | .undecodable => defaultManifestJson
  | .decoded .null => defaultManifestJson
  | .decoded parsed =>
    match jsGet parsed "images" with
    | some (.arr imgs) => .obj [("albums", .obj [("normal", .arr imgs)])]
    | _ => if jsTruthy (jsGet parsed "albums") then parsed else defaultManifestJson

/-- Whether the `albums` field of a JSON value is an object (a well-formed
album mapping). -/
def hasAlbumsMapping (j : Json) : Bool :=
  match jsGet j "albums" with
  | some (.obj _) => true
  | _ => false

/-! ## Manifest data model (githubService.ts lines 10-19) -/

/-- One image record of the manifest. -/
structure GithubManifestItem where
  path : String
  createdAt : String
deriving DecidableEq

/-- The manifest: album name to ordered record list.  A JavaScript object
is modelled by an association list in key-insertion order; keys of
reachable manifests are unique. -/
structure GithubManifest where
  albums : List (String × List GithubManifestItem)
deriving DecidableEq

/-- Object indexing `albums[name]`; `none` models `undefined`. -/
def lookupAlbum (albums : List (String × List GithubManifestItem)) (name : String) :
    Option (List GithubManifestItem) :=
  match albums with
  | [] => none
  | (k, v) :: rest => if k = name then some v else lookupAlbum rest name

/-- Object assignment `albums[name] = items`: replaces the binding in place
if the key exists, otherwise appends it (JavaScript key-insertion order). -/
def setAlbum (albums : List (String × List GithubManifestItem)) (name : String)
    (items : List GithubManifestItem) : List (String × List GithubManifestItem) :=
  if (lookupAlbum albums name).isSome then
    albums.map (fun p => if p.1 = name then (name, items) else p)
  else albums ++ [(name, items)]

/-- `delete albums[name]`.  On the unique-key lists that model JavaScript
objects, removing every occurrence equals removing the single binding. -/
def removeAlbum (albums : List (String × List GithubManifestItem)) (name : String) :
    List (String × List GithubManifestItem) :=
  albums.filter (fun p => p.1 ≠ name)

/-! ## slugify and file-name splitting (src/unnamed/part_003 lines 15-24) -/

/-- A character kept by the regex replace `[^\w-]+` → empty: ASCII word
characters (the JavaScript `\w` class: letters, digits, underscore) and the
hyphen. -/
def isWordChar (c : Char) : Bool := c.isAlphanum || c = '_' || c = '-'

/-- One step of the replace `\s+` → `-`.  The source replaces each maximal
whitespace run by a single hyphen; here every whitespace character becomes
a hyphen and the final hyphen-run collapse (also present in the source as
the replace `--+` → `-`) normalises the run lengths, which yields the same
composite function. -/
def wsToDash (c : Char) : Char := if c.isWhitespace then '-' else c

/-- The `trim()` step: strip leading and trailing whitespace, modelled on
the character list of the string. -/
def trimChars (l : List Char) : List Char :=
  ((l.dropWhile Char.isWhitespace).reverse.dropWhile Char.isWhitespace).reverse

/-- The replace `--+` → `-`, scanning left to right: a hyphen directly
after an emitted hyphen is dropped, which collapses every run of hyphens to
a single one (runs of length one are unchanged). -/
def collapseDashesAux : Bool → List Char → List Char
  | _, [] => []
  | prevDash, c :: rest =>
    if c = '-' then
      if prevDash then collapseDashesAux true rest
      else '-' :: collapseDashesAux true rest
    else c :: collapseDashesAux false rest

/-- The replace `--+` → `-`: collapse every run of hyphens to a single
hyphen. -/
def collapseDashes (l : List Char) : List Char := collapseDashesAux false l

/-- Embeds slugify (src/unnamed/part_003 lines 15-18).  The initial
`normalize(NFD)` followed by stripping combining marks is the identity on
strings without decomposable characters and is modelled as the identity (no
claim depends on it); the remaining chain is modelled step by step on the
character list: toLowerCase, trim, whitespace runs to hyphens, removal of
characters outside `[\w-]`, and collapsing hyphen runs. -/
def slugify (text : String) : String :=
  if text = "" then ""
  else String.mk
    (collapseDashes (((trimChars (text.data.map Char.toLower)).map wsToDash).filter isWordChar))

/-- Result of getFileNameParts. -/
structure FileNameParts where
  name : String
  extension : String
deriving DecidableEq

/-- Index of the last occurrence of a character, as `lastIndexOf`. -/
def lastIdxOf (l : List Char) (c : Char) : Option Nat :=
  match l with
  | [] => none
  | d :: rest =>
    match lastIdxOf rest c with
    | some i => some (i + 1)
    | none => if d = c then some 0 else none

/-- Embeds getFileNameParts (src/unnamed/part_003 lines 20-24): split at the
last dot; a missing dot or a leading dot yields an empty extension. -/
def getFileNameParts (fileName : String) : FileNameParts :=
  match lastIdxOf fileName.data '.' with
  | none => ⟨fileName, ""⟩
  | some 0 => ⟨fileName, ""⟩
  | some i => ⟨String.mk (fileName.data.take i), String.mk (fileName.data.drop (i + 1))⟩

/-! ## Remote-call trace model -/

/-- The body sent with a PUT on a path: either base64 blob content carried
verbatim, or the manifest serialisation
`btoa(JSON.stringify(newManifest, null, 2))` (part_003 lines 54-55),
abstracted to the manifest value it encodes — the serialisation is
injective and never read back by the program, so no information is lost. -/
inductive Payload where
  | blob (contentBase64 : String)
  | manifestJson (m : GithubManifest)
deriving DecidableEq

/-- One remote request, in the order the workflows issue them:
`getManifestOp` models getManifest, `getShaOp` getFileSha, `uploadOp`
uploadFile (a create: PUT without sha), `updateOp` updateFile (PUT with
sha), `deleteOp` deleteFile, `readRawOp` getRawFileContent. -/
inductive RemoteOp where
  | getManifestOp
  | getShaOp (path : String)
  | uploadOp (path : String) (content : Payload)
  | updateOp (path : String) (content : Payload) (sha : String)
  | deleteOp (path : String) (sha : String)
  | readRawOp (path : String)
deriving DecidableEq

/-- Oracle answering the n-th remote call of a workflow run.  `manifestAt`
answers getManifest calls: that function is total (it returns the bootstrap
manifest on every failure, see the JSON layer), so its answer is a plain
manifest.  getFileSha answers with `none` on 404 and can throw; uploadFile,
updateFile and deleteFile answer unit or throw; getRawFileContent answers
the base64 content or throws. -/
structure Env where
  manifestAt : Nat → GithubManifest
  shaAt : Nat → Except String (Option String)
  unitAt : Nat → Except String Unit
  rawAt : Nat → Except String String

/-- Outcome of a workflow run: `ok` carries the value produced (for a full
workflow, the manifest passed to setManifest), the next call index and the
trace of issued calls; `errored` models reaching the catch block (the error
message is surfaced through setError); `silent` models an early return that
raises no error at all. -/
inductive WfResult (α : Type) where
  | ok (value : α) (k : Nat) (trace : List RemoteOp)
  | errored (msg : String) (k : Nat) (trace : List RemoteOp)
  | silent (trace : List RemoteOp)
deriving DecidableEq

/-- The trace of remote calls issued by a run, whatever its outcome. -/
def traceOf {α : Type} : WfResult α → List RemoteOp
  | .ok _ _ tr => tr
  | .errored _ _ tr => tr
  | .silent tr => tr

/-- The repository path of the manifest file. -/
def manifestPath : String := "manifest.json"

/-- Embeds updateAndPushManifest (part_003 lines 52-65): read the current
sha of manifest.json with getFileSha, then updateFile with that sha if one
exists, else uploadFile (create).  On success the new manifest becomes the
local state (setManifest). -/
def updateAndPushManifest (env : Env) (k : Nat) (tr : List RemoteOp)
    (newManifest : GithubManifest) (summaryMessage : String) : WfResult GithubManifest :=
  match env.shaAt k with
  | .error e => .errored e (k + 1) (tr ++ [.getShaOp manifestPath])
  | .ok (some sha) =>
    match env.unitAt (k + 1) with
    | .error e => .errored e (k + 2)
        (tr ++ [.getShaOp manifestPath, .updateOp manifestPath (.manifestJson newManifest) sha])
    | .ok _ => .ok newManifest (k + 2)
        (tr ++ [.getShaOp manifestPath, .updateOp manifestPath (.manifestJson newManifest) sha])
  | .ok none =>
    match env.unitAt (k + 1) with
    | .error e => .errored e (k + 2)
        (tr ++ [.getShaOp manifestPath, .uploadOp manifestPath (.manifestJson newManifest)])
    | .ok _ => .ok newManifest (k + 2)
        (tr ++ [.getShaOp manifestPath, .uploadOp manifestPath (.manifestJson newManifest)])

/-! ## addImages workflow (handleUploadComplete, part_003 lines 67-115) -/

/-- One file handed to the upload workflow (UploadPanel FileToUpload): the
original file name, its bytes already read as base64 (the FileReader step
is local and modelled as pure), and the album selected for it. -/
structure FileToUpload where
  name : String
  contentBase64 : String
  albumName : String
deriving DecidableEq

/-- The file name synthesised for the i-th file of a batch (part_003
line 81): `Date.now()` at iteration i is `clock i`, so the timestamp
component is `clock i + i`. -/
def synthFileName (clock : Nat → Nat) (i : Nat) (f : FileToUpload) : String :=
  slugify f.albumName ++ "_" ++ Nat.repr (clock i + i) ++ "_" ++
    slugify (getFileNameParts f.name).name ++ "." ++ (getFileNameParts f.name).extension

/-- The repository path synthesised for the i-th file of a batch (part_003
line 82). -/
def synthPath (clock : Nat → Nat) (i : Nat) (f : FileToUpload) : String :=
  f.albumName ++ "/" ++ synthFileName clock i f

/-- The upload operations a batch issues, starting at file index i: one
create per file, in batch order. -/
def uploadOpsFor (clock : Nat → Nat) (files : List FileToUpload) (i : Nat) : List RemoteOp :=
  match files with
  | [] => []
  | f :: rest => .uploadOp (synthPath clock i f) (.blob f.contentBase64) :: uploadOpsFor clock rest (i + 1)

/-- `newEntriesByAlbum[albumName].push(item)`, creating the key on first
use (part_003 lines 93-94). -/
def addEntry (acc : List (String × List GithubManifestItem)) (a : String)
    (it : GithubManifestItem) : List (String × List GithubManifestItem) :=
  match lookupAlbum acc a with
  | some cur => setAlbum acc a (cur ++ [it])
  | none => acc ++ [(a, [it])]

/-- The merge of the new entries into the freshly fetched albums (part_003
lines 97-104): albums already present get the new records appended, new
albums are added at the end, in first-upload order. -/
def mergeNewEntries (albums : List (String × List GithubManifestItem)) :
    List (String × List GithubManifestItem) → List (String × List GithubManifestItem)
  | [] => albums
  | (a, items) :: rest =>
    mergeNewEntries
      (match lookupAlbum albums a with
       | some cur => setAlbum albums a (cur ++ items)
       | none => albums ++ [(a, items)]) rest

/-- The upload loop of handleUploadComplete (part_003 lines 79-95):
synthesise the path of file i, read its bytes (local), uploadFile it, and
record the new manifest entry; a failing upload aborts the loop and the
whole workflow.  `iso i` is `new Date().toISOString()` at iteration i. -/
def uploadLoop (env : Env) (clock : Nat → Nat) (iso : Nat → String)
    (files : List FileToUpload) (i k : Nat) (tr : List RemoteOp)
    (acc : List (String × List GithubManifestItem)) :
    WfResult (List (String × List GithubManifestItem)) :=
  match files with
  | [] => .ok acc k tr
  | f :: rest =>
    match env.unitAt k with
    | .error e => .errored e (k + 1)
        (tr ++ [.uploadOp (synthPath clock i f) (.blob f.contentBase64)])
    | .ok _ => uploadLoop env clock iso rest (i + 1) (k + 1)
        (tr ++ [.uploadOp (synthPath clock i f) (.blob f.contentBase64)])
        (addEntry acc f.albumName ⟨synthPath clock i f, iso i⟩)

/-- Embeds handleUploadComplete (part_003 lines 67-115): re-fetch the
manifest (call 0; getManifest is total), upload every file in order (calls
1..n), merge the new records into the fetched albums and commit through
updateAndPushManifest.  Any thrown error reaches the catch block, which
surfaces it via setError without rolling anything back. -/
def handleUploadComplete (env : Env) (clock : Nat → Nat) (iso : Nat → String)
    (manifest : GithubManifest) (uploadedFiles : List FileToUpload) : WfResult GithubManifest :=
  match uploadLoop env clock iso uploadedFiles 0 1 [.getManifestOp] [] with
  | .ok newEntries k tr =>
    updateAndPushManifest env k tr { albums := mergeNewEntries (env.manifestAt 0).albums newEntries }
      "Successfully uploaded file(s)!"
  | .errored e k tr => .errored e k tr
  | .silent tr => .silent tr

/-! ## deleteImage workflow (handleDeleteImage, part_003 lines 117-137) -/

/-- The runtime message of calling `.filter` on an undefined album list. -/
def undefinedFilterMsg : String := "Cannot read properties of undefined"

/-- Embeds handleDeleteImage (part_003 lines 117-137): an unconfirmed
dialog returns silently; getFileSha resolves the revision of the blob, a
missing sha throws "Could not find file to delete.", then deleteFile
removes the blob, the record list of the album is filtered by exact path
inequality and the result is committed.  A missing album key makes the
filter call throw (modelled by `undefinedFilterMsg`). -/
def handleDeleteImage (env : Env) (confirmDelete : Bool) (manifest : GithubManifest)
    (albumName imagePath : String) : WfResult GithubManifest :=
  if !confirmDelete then .silent []
  else
    match env.shaAt 0 with
    | .error e => .errored e 1 [.getShaOp imagePath]
    | .ok none => .errored "Could not find file to delete." 1 [.getShaOp imagePath]
    | .ok (some sha) =>
      match env.unitAt 1 with
      | .error e => .errored e 2 [.getShaOp imagePath, .deleteOp imagePath sha]
      | .ok _ =>
        match lookupAlbum manifest.albums albumName with
        | none => .errored undefinedFilterMsg 2 [.getShaOp imagePath, .deleteOp imagePath sha]
        | some recs =>
          updateAndPushManifest env 2 [.getShaOp imagePath, .deleteOp imagePath sha]
            { albums := setAlbum manifest.albums albumName
                (recs.filter (fun img => img.path != imagePath)) }
            "Successfully deleted."

/-! ## deleteAlbum workflow (handleDeleteAlbum, part_003 lines 139-164) -/

/-- The per-image loop of handleDeleteAlbum (lines 146-151): resolve the
sha of each blob and delete it when present, silently skipping blobs that
no longer exist; a thrown error aborts the workflow. -/
def deleteAlbumLoop (env : Env) (images : List GithubManifestItem) (k : Nat)
    (tr : List RemoteOp) : WfResult Unit :=
  match images with
  | [] => .ok () k tr
  | img :: rest =>
    match env.shaAt k with
    | .error e => .errored e (k + 1) (tr ++ [.getShaOp img.path])
    | .ok none => deleteAlbumLoop env rest (k + 1) (tr ++ [.getShaOp img.path])
    | .ok (some sha) =>
      match env.unitAt (k + 1) with
      | .error e => .errored e (k + 2) (tr ++ [.getShaOp img.path, .deleteOp img.path sha])
      | .ok _ => deleteAlbumLoop env rest (k + 2) (tr ++ [.getShaOp img.path, .deleteOp img.path sha])

/-- Embeds handleDeleteAlbum (part_003 lines 139-164).  The guard
`albumName === normal` is checked before the confirmation dialog and makes
the handler return silently — no error is raised, no remote call issued and
no state changed.  Otherwise every blob of the album is deleted and the
album key is removed from the manifest, which is then committed. -/
def handleDeleteAlbum (env : Env) (confirmDelete : Bool) (manifest : GithubManifest)
    (albumName : String) : WfResult GithubManifest :=
  if albumName = "normal" then .silent []
  else if !confirmDelete then .silent []
  else
    match deleteAlbumLoop env ((lookupAlbum manifest.albums albumName).getD []) 0 [] with
    | .ok _ k tr => updateAndPushManifest env k tr
        { albums := removeAlbum manifest.albums albumName } "Successfully deleted album."
    | .errored e k tr => .errored e k tr
    | .silent tr => .silent tr

/-! ## renameAlbum workflow (handleRenameAlbum, part_003 lines 166-201) -/

/-- Literal prefix test on character lists (the anchored regex match). -/
def startsWithChars : List Char → List Char → Bool
  | _, [] => true
  | [], _ :: _ => false
  | c :: cs, p :: ps => (c = p) && startsWithChars cs ps

/-- The path rewrite of line 180: `path.replace(new RegExp(...), ...)` with
the pattern built from `^` + oldName + `/`.  Album names are slugs over
letters, digits, underscore and hyphen, none of which is a regex
metacharacter, so the regex matches exactly the literal leading
`oldName + "/"`; the replace is modelled as that prefix substitution and
leaves the path unchanged when the prefix does not occur. -/
def renamePath (oldName newSlug path : String) : String :=
  if startsWithChars path.data (oldName ++ "/").data then
    newSlug ++ "/" ++ String.mk (path.data.drop (oldName.length + 1))
  else path

/-- The per-image loop of handleRenameAlbum (lines 179-187): read the raw
bytes of each blob, create the copy under the new path, record the new
manifest entry with unchanged createdAt, then resolve the sha of the
original and delete it when present.  A thrown error aborts the
workflow. -/
def renameLoop (env : Env) (oldName newSlug : String) (images : List GithubManifestItem)
    (k : Nat) (tr : List RemoteOp) (acc : List GithubManifestItem) :
    WfResult (List GithubManifestItem) :=
  match images with
  | [] => .ok acc k tr
  | img :: rest =>
    match env.rawAt k with
    | .error e => .errored e (k + 1) (tr ++ [.readRawOp img.path])
    | .ok content =>
      match env.unitAt (k + 1) with
      | .error e => .errored e (k + 2)
          (tr ++ [.readRawOp img.path,
                  .uploadOp (renamePath oldName newSlug img.path) (.blob content)])
      | .ok _ =>
        match env.shaAt (k + 2) with
        | .error e => .errored e (k + 3)
            (tr ++ [.readRawOp img.path,
                    .uploadOp (renamePath oldName newSlug img.path) (.blob content),
                    .getShaOp img.path])
        | .ok none => renameLoop env oldName newSlug rest (k + 3)
            (tr ++ [.readRawOp img.path,
                    .uploadOp (renamePath oldName newSlug img.path) (.blob content),
                    .getShaOp img.path])
            (acc ++ [⟨renamePath oldName newSlug img.path, img.createdAt⟩])
        | .ok (some sha) =>
          match env.unitAt (k + 3) with
          | .error e => .errored e (k + 4)
              (tr ++ [.readRawOp img.path,
                      .uploadOp (renamePath oldName newSlug img.path) (.blob content),
                      .getShaOp img.path, .deleteOp img.path sha])
          | .ok _ => renameLoop env oldName newSlug rest (k + 4)
              (tr ++ [.readRawOp img.path,
                      .uploadOp (renamePath oldName newSlug img.path) (.blob content),
                      .getShaOp img.path, .deleteOp img.path sha])
              (acc ++ [⟨renamePath oldName newSlug img.path, img.createdAt⟩])

/-- The validation message of the rename guard (line 169; the quotation
marks around the word normal in the source string are dropped). -/
def renameGuardMsg : String :=
  "Cannot rename: Invalid or duplicate name, or trying to rename the default normal album."

/-- Embeds handleRenameAlbum (part_003 lines 166-201): the guard rejects
a rename of the normal album, an empty new slug, a new slug equal to the
old name and a collision with an existing album key, all via setError and
before any remote call.  Otherwise every image is copied then deleted by
renameLoop, the old key is removed, the new key is assigned the rebuilt
record list and the manifest is committed. -/
def handleRenameAlbum (env : Env) (manifest : GithubManifest) (oldName newName : String) :
    WfResult GithubManifest :=
  if oldName = "normal" || slugify newName = "" || oldName = slugify newName
      || (lookupAlbum manifest.albums (slugify newName)).isSome then
    .errored renameGuardMsg 0 []
  else
    match renameLoop env oldName (slugify newName)
        ((lookupAlbum manifest.albums oldName).getD []) 0 [] [] with
    | .ok newImageEntries k tr => updateAndPushManifest env k tr
        { albums := setAlbum (removeAlbum manifest.albums oldName) (slugify newName)
            newImageEntries }
        "Successfully renamed album."
    | .errored e k tr => .errored e k tr
    | .silent tr => .silent tr

/-! ## Trace predicates -/

/-- Whether a remote operation touches the manifest file. -/
def touchesManifestFile : RemoteOp → Bool
  | .getManifestOp => true
  | .getShaOp p => p = manifestPath
  | .uploadOp p _ => p = manifestPath
  | .updateOp p _ _ => p = manifestPath
  | .deleteOp p _ => p = manifestPath
  | .readRawOp p => p = manifestPath

/-- Whether a remote operation writes the manifest file (commits it). -/
def commitsManifest : RemoteOp → Bool
  | .uploadOp p _ => p = manifestPath
  | .updateOp p _ _ => p = manifestPath
  | _ => false

/-- Whether a remote operation deletes a blob. -/
def isDeleteOp : RemoteOp → Bool
  | .deleteOp _ _ => true
  | _ => false

/-- Whether a run ended in the catch block (an error was surfaced). -/
def isErroredResult {α : Type} : WfResult α → Bool
  | .errored _ _ _ => true
  | _ => false

/-! ## Decimal numerals

The path-uniqueness claim rests on the decimal numeral of the timestamp:
`Nat.repr` is injective and never contains an underscore, so distinct
timestamps yield distinct synthesised file names.  `decChars` recomputes
the digit list of `Nat.toDigits 10` by structural recursion on the value,
which makes it amenable to induction. -/

/-- Most-significant-first decimal digit characters of a natural number. -/
def decChars (n : Nat) : List Char :=
  if h : n < 10 then [Nat.digitChar n]
  else decChars (n / 10) ++ [Nat.digitChar (n % 10)]
termination_by n
decreasing_by
  exact Nat.div_lt_self (by omega) (by omega)

/-- Inverse of `Nat.digitChar` on decimal digits. -/
def charVal (c : Char) : Nat :=
  if c = '0' then 0 else if c = '1' then 1 else if c = '2' then 2 else
  if c = '3' then 3 else if c = '4' then 4 else if c = '5' then 5 else
  if c = '6' then 6 else if c = '7' then 7 else if c = '8' then 8 else
  if c = '9' then 9 else 10

/-- The number denoted by a most-significant-first decimal digit list. -/
def valOfDigits (l : List Char) : Nat :=
  l.foldl (fun a c => a * 10 + charVal c) 0

/-! ## Concrete fixtures used by witnesses and counterexamples -/

/-- An oracle whose every call succeeds: getFileSha resolves sha0, blob
reads return the base64 of ABC, and writes succeed. -/
def allOkEnv : Env where
  manifestAt := fun _ => { albums := [("normal", [])] }
  shaAt := fun _ => .ok (some "sha0")
  unitAt := fun _ => .ok ()
  rawAt := fun _ => .ok "QUJD"

/-- An oracle whose second upload (call index 2) fails with boom and whose
other calls succeed. -/
def failSecondUploadEnv : Env where
  manifestAt := fun _ => { albums := [("normal", [])] }
  shaAt := fun _ => .ok (some "sha0")
  unitAt := fun k => if k = 2 then .error "boom" else .ok ()
  rawAt := fun _ => .ok "QUJD"

/-- An oracle whose getFileSha calls all answer 404 (no revision tag). -/
def notFoundShaEnv : Env where
  manifestAt := fun _ => { albums := [("normal", [])] }
  shaAt := fun _ => .ok none
  unitAt := fun _ => .ok ()
  rawAt := fun _ => .ok "QUJD"

/-- A manifest with an empty normal album and a misc album of two images. -/
def miscManifest : GithubManifest :=
  { albums := [("normal", []),
               ("misc", [⟨"misc/a.jpg", "t1"⟩, ⟨"misc/b.jpg", "t2"⟩])] }

/-- The manifest entries accumulated by a fully successful upload loop:
the pure content of newEntriesByAlbum after the batch. -/
def entriesFor (clock : Nat → Nat) (iso : Nat → String) (files : List FileToUpload)
    (i : Nat) (acc : List (String × List GithubManifestItem)) :
    List (String × List GithubManifestItem) :=
  match files with
  | [] => acc
  | f :: rest => entriesFor clock iso rest (i + 1)
      (addEntry acc f.albumName ⟨synthPath clock i f, iso i⟩)

/-- The two remote operations of a successful commit: the fresh sha read
followed by updateFile when a sha exists and uploadFile when it does
not. -/
def commitOps (nm : GithubManifest) (msha : Option String) : List RemoteOp :=
  match msha with
  | some sha => [.getShaOp manifestPath, .updateOp manifestPath (.manifestJson nm) sha]
  | none => [.getShaOp manifestPath, .uploadOp manifestPath (.manifestJson nm)]

/-! # Theorems -/

/-! ## Manifest loading (claims C8, C9, C10) -/

/-- Claim C9: for every stored manifest content in the legacy shape with an
`images` key holding an array, loadManifest yields that array as the normal
album, preserving the list and its order.  The migration is performed by
the read path alone: `getManifest` is a pure function of the single read
outcome and issues no write. -/
theorem loadManifest_migrates_legacy_images (fields : List (String × Json)) (l : List Json)
    (h : lookupField fields "images" = some (.arr l)) :
    getManifest (.decoded (.obj fields)) = .obj [("albums", .obj [("normal", .arr l)])] := by
  simp [getManifest, jsGet, h]

/-- Witness for C9 at a concrete two-element legacy manifest. -/
theorem loadManifest_migrates_legacy_images_witness :
    getManifest (.decoded (.obj [("images", .arr [.str "a", .str "b"])])) =
      .obj [("albums", .obj [("normal", .arr [.str "a", .str "b"])])] :=
  loadManifest_migrates_legacy_images _ _ rfl

/-- Counterexample to claim C8: a decoded manifest whose `albums` key is
present but malformed (a string) is returned unchanged, not replaced by the
bootstrap manifest. -/
theorem loadManifest_malformed_albums_counterexample :
    getManifest (.decoded (.obj [("albums", .str "oops")])) = .obj [("albums", .str "oops")] ∧
    getManifest (.decoded (.obj [("albums", .str "oops")])) ≠ defaultManifestJson := by
  refine ⟨rfl, fun h => ?_⟩
  exact absurd (congrArg hasAlbumsMapping h) (by decide)

/-- Claim C8, amended: loadManifest returns the bootstrap manifest when the
manifest file is absent, and when decoding succeeds but the `albums` key is
absent or JavaScript-falsy while no legacy `images` array is present; a
truthy malformed `albums` value is passed through unchanged instead.
Neither case propagates an error. -/
theorem loadManifest_bootstrap_on_absent_or_falsy_albums (fields : List (String × Json))
    (himg : ∀ l, lookupField fields "images" ≠ some (.arr l))
    (halb : jsTruthy (lookupField fields "albums") = false) :
    getManifest .notFound = defaultManifestJson ∧
    getManifest (.decoded (.obj fields)) = defaultManifestJson := by
  refine ⟨rfl, ?_⟩
  simp only [getManifest, jsGet]
  cases hi : lookupField fields "images" with
  | none => simp [halb]
  | some v =>
    cases v with
    | arr l => exact absurd hi (himg l)
    | null => simp [halb]
    | bool b => simp [halb]
    | num n => simp [halb]
    | str s => simp [halb]
    | obj o => simp [halb]

/-- Witness for C8 (amended) at a manifest whose `albums` key is null. -/
theorem loadManifest_bootstrap_witness :
    getManifest .notFound = defaultManifestJson ∧
    getManifest (.decoded (.obj [("albums", .null)])) = defaultManifestJson :=
  loadManifest_bootstrap_on_absent_or_falsy_albums [("albums", .null)]
    (fun l h => by
      rw [show lookupField [("albums", Json.null)] "images" = none from rfl] at h
      exact Option.noConfusion h) rfl

/-- Counterexample to claim C10: on successfully decoded content whose
`albums` key is a truthy non-object (a number), loadManifest returns the
parsed value unchanged, which is not a manifest object with an albums
mapping. -/
theorem loadManifest_not_always_mapping_counterexample :
    getManifest (.decoded (.obj [("albums", .num 42)])) = .obj [("albums", .num 42)] ∧
    hasAlbumsMapping (getManifest (.decoded (.obj [("albums", .num 42)]))) = false :=
  ⟨rfl, rfl⟩

/-- Claim C10, amended: loadManifest is total and never propagates an
error: a not-found, a request failure and undecodable content all yield the
bootstrap manifest, and every successfully decoded value yields either a
value with a well-formed albums mapping (bootstrap or migrated) or the
parsed value passed through unchanged. -/
theorem loadManifest_total_never_propagates :
    (∀ msg, getManifest (.requestError msg) = defaultManifestJson) ∧
    getManifest .notFound = defaultManifestJson ∧
    getManifest .undecodable = defaultManifestJson ∧
    (∀ parsed, getManifest (.decoded parsed) = parsed ∨
      hasAlbumsMapping (getManifest (.decoded parsed)) = true) := by
  refine ⟨fun _ => rfl, rfl, rfl, fun parsed => ?_⟩
  cases parsed with
  | null => exact Or.inr rfl
  | bool b => exact Or.inr rfl
  | num n => exact Or.inr rfl
  | str s => exact Or.inr rfl
  | arr l => exact Or.inr rfl
  | obj fields =>
    simp only [getManifest, jsGet]
    cases hi : lookupField fields "images" with
    | none =>
      by_cases ht : jsTruthy (lookupField fields "albums") = true
      · exact Or.inl (by simp [ht])
      · refine Or.inr ?_
        rw [if_neg (by simp [eq_false_of_ne_true ht])]
        rfl
    | some v =>
      cases v with
      | arr l => exact Or.inr rfl
      | null =>
        by_cases ht : jsTruthy (lookupField fields "albums") = true
        · exact Or.inl (by simp [ht])
        · refine Or.inr ?_
          rw [if_neg (by simp [eq_false_of_ne_true ht])]
          rfl
      | bool b =>
        by_cases ht : jsTruthy (lookupField fields "albums") = true
        · exact Or.inl (by simp [ht])
        · refine Or.inr ?_
          rw [if_neg (by simp [eq_false_of_ne_true ht])]
          rfl
      | num n =>
        by_cases ht : jsTruthy (lookupField fields "albums") = true
        · exact Or.inl (by simp [ht])
        · refine Or.inr ?_
          rw [if_neg (by simp [eq_false_of_ne_true ht])]
          rfl
      | str s =>
        by_cases ht : jsTruthy (lookupField fields "albums") = true
        · exact Or.inl (by simp [ht])
        · refine Or.inr ?_
          rw [if_neg (by simp [eq_false_of_ne_true ht])]
          rfl
      | obj o =>
        by_cases ht : jsTruthy (lookupField fields "albums") = true
        · exact Or.inl (by simp [ht])
        · refine Or.inr ?_
          rw [if_neg (by simp [eq_false_of_ne_true ht])]
          rfl

/-! ## deleteAlbum of the protected album (claim C5) -/

/-- Counterexample to claim C5: at a concrete manifest and oracle,
deleteAlbum of the normal album does not fail with any error — the run is
a silent early return, so no ProtectedAlbumError (nor any other error) is
surfaced. -/
theorem deleteAlbum_normal_no_error_counterexample :
    isErroredResult (handleDeleteAlbum allOkEnv true miscManifest "normal") = false ∧
    handleDeleteAlbum allOkEnv true miscManifest "normal" = .silent [] := by
  exact ⟨rfl, rfl⟩

/-- Claim C5, amended: for every oracle, confirmation choice and manifest,
deleteAlbum of the normal album returns silently before doing anything: it
raises no error, issues no remote call and leaves the manifest unchanged
(the local state is not written either, as only ok results reach
setManifest). -/
theorem deleteAlbum_normal_silent_noop (env : Env) (confirmDelete : Bool)
    (manifest : GithubManifest) :
    handleDeleteAlbum env confirmDelete manifest "normal" = .silent [] := by
  simp [handleDeleteAlbum]

/-! ## renameAlbum validation guard (claim C6) -/

/-- Claim C6: renameAlbum fails with the validation error, with no remote
call issued, whenever the old name is the protected normal album, or the
slug of the new name is empty, or equals the old name, or collides with an
existing album key of the manifest. -/
theorem renameAlbum_guard_rejects (env : Env) (m : GithubManifest)
    (oldName newName : String)
    (h : oldName = "normal" ∨ slugify newName = "" ∨ oldName = slugify newName ∨
      (lookupAlbum m.albums (slugify newName)).isSome = true) :
    handleRenameAlbum env m oldName newName = .errored renameGuardMsg 0 [] := by
  unfold handleRenameAlbum
  rcases h with h | h | h | h <;> simp [h]

/-- Witness for C6: renaming the normal album is rejected without remote
calls. -/
theorem renameAlbum_guard_rejects_witness :
    handleRenameAlbum allOkEnv miscManifest "normal" "target" = .errored renameGuardMsg 0 [] :=
  renameAlbum_guard_rejects allOkEnv miscManifest "normal" "target" (Or.inl rfl)

/-! ## Commit protocol (claim C2) -/

/-- Claim C2: every commit re-reads the current revision of manifest.json
immediately before writing — the written sha is by construction the one the
fresh read returned at this very call index, whatever the workflow read
earlier — and then performs updateFile exactly when a sha exists and
uploadFile (create) when it does not. -/
theorem commit_rereads_sha_then_writes (env : Env) (k : Nat) (tr : List RemoteOp)
    (m : GithubManifest) (s : String) (sha : String) :
    (env.shaAt k = .ok (some sha) →
      traceOf (updateAndPushManifest env k tr m s) =
        tr ++ [.getShaOp manifestPath, .updateOp manifestPath (.manifestJson m) sha]) ∧
    (env.shaAt k = .ok none →
      traceOf (updateAndPushManifest env k tr m s) =
        tr ++ [.getShaOp manifestPath, .uploadOp manifestPath (.manifestJson m)]) := by
  constructor <;> intro h <;> unfold updateAndPushManifest <;> rw [h] <;>
    cases env.unitAt (k + 1) <;> rfl

/-- Witness for C2: with a resolving oracle the commit trace is the fresh
sha read followed by an update with that sha; with a 404-answering oracle
it is the fresh sha read followed by a create. -/
theorem commit_rereads_sha_then_writes_witness :
    traceOf (updateAndPushManifest allOkEnv 0 [] miscManifest "s") =
      [.getShaOp manifestPath, .updateOp manifestPath (.manifestJson miscManifest) "sha0"] ∧
    traceOf (updateAndPushManifest notFoundShaEnv 0 [] miscManifest "s") =
      [.getShaOp manifestPath, .uploadOp manifestPath (.manifestJson miscManifest)] :=
  ⟨(commit_rereads_sha_then_writes allOkEnv 0 [] miscManifest "s" "sha0").1 rfl,
   (commit_rereads_sha_then_writes notFoundShaEnv 0 [] miscManifest "s" "sha0").2 rfl⟩

/-! ## Association-list helper lemmas -/

theorem lookupAlbum_append (l1 l2 : List (String × List GithubManifestItem)) (b : String) :
    lookupAlbum (l1 ++ l2) b =
      match lookupAlbum l1 b with
      | some v => some v
      | none => lookupAlbum l2 b := by
  induction l1 with
  | nil => simp [lookupAlbum]
  | cons p rest ih =>
    obtain ⟨k, w⟩ := p
    by_cases hk : k = b <;> simp [lookupAlbum, hk, ih]

theorem lookupAlbum_map_set (l : List (String × List GithubManifestItem)) (a : String)
    (v : List GithubManifestItem) (h : (lookupAlbum l a).isSome = true) :
    lookupAlbum (l.map (fun p => if p.1 = a then (a, v) else p)) a = some v := by
  induction l with
  | nil => simp [lookupAlbum] at h
  | cons p rest ih =>
    obtain ⟨k, w⟩ := p
    simp only [List.map_cons]
    by_cases hk : k = a
    · rw [show (if (k, w).1 = a then (a, v) else (k, w)) = (a, v) from if_pos hk]
      simp [lookupAlbum]
    · rw [show (if (k, w).1 = a then (a, v) else (k, w)) = (k, w) from if_neg hk]
      have h2 : (lookupAlbum rest a).isSome = true := by
        simpa [lookupAlbum, hk] using h
      simp [lookupAlbum, hk, ih h2]

theorem lookupAlbum_map_set_other (l : List (String × List GithubManifestItem))
    (a b : String) (v : List GithubManifestItem) (hne : b ≠ a) :
    lookupAlbum (l.map (fun p => if p.1 = a then (a, v) else p)) b = lookupAlbum l b := by
  induction l with
  | nil => rfl
  | cons p rest ih =>
    obtain ⟨k, w⟩ := p
    simp only [List.map_cons]
    by_cases hk : k = a
    · rw [show (if (k, w).1 = a then (a, v) else (k, w)) = (a, v) from if_pos hk]
      have hkb : ¬k = b := by
        rw [hk]
        exact fun h => hne h.symm
      simp [lookupAlbum, Ne.symm hne, hkb, ih]
    · rw [show (if (k, w).1 = a then (a, v) else (k, w)) = (k, w) from if_neg hk]
      by_cases hkb : k = b <;> simp [lookupAlbum, hkb, ih]

theorem lookupAlbum_setAlbum_self (l : List (String × List GithubManifestItem)) (a : String)
    (v : List GithubManifestItem) : lookupAlbum (setAlbum l a v) a = some v := by
  unfold setAlbum
  by_cases hs : (lookupAlbum l a).isSome = true
  · rw [if_pos hs]
    exact lookupAlbum_map_set l a v hs
  · rw [if_neg hs]
    have hn : lookupAlbum l a = none := by
      cases hl : lookupAlbum l a
      · rfl
      · rw [hl] at hs
        simp at hs
    rw [lookupAlbum_append, hn]
    simp [lookupAlbum]

theorem lookupAlbum_setAlbum_other (l : List (String × List GithubManifestItem))
    (a b : String) (v : List GithubManifestItem) (hne : b ≠ a) :
    lookupAlbum (setAlbum l a v) b = lookupAlbum l b := by
  unfold setAlbum
  by_cases hs : (lookupAlbum l a).isSome = true
  · rw [if_pos hs]
    exact lookupAlbum_map_set_other l a b v hne
  · rw [if_neg hs]
    rw [lookupAlbum_append]
    cases hl : lookupAlbum l b with
    | some w => rfl
    | none => simp [lookupAlbum, Ne.symm hne]

theorem lookupAlbum_removeAlbum_self (l : List (String × List GithubManifestItem))
    (a : String) : lookupAlbum (removeAlbum l a) a = none := by
  induction l with
  | nil => rfl
  | cons p rest ih =>
    obtain ⟨k, w⟩ := p
    by_cases hk : k = a
    · simpa [removeAlbum, List.filter_cons, hk] using ih
    · simpa [removeAlbum, List.filter_cons, hk, lookupAlbum] using ih

theorem lookupAlbum_removeAlbum_other (l : List (String × List GithubManifestItem))
    (a b : String) (hne : b ≠ a) :
    lookupAlbum (removeAlbum l a) b = lookupAlbum l b := by
  induction l with
  | nil => rfl
  | cons p rest ih =>
    obtain ⟨k, w⟩ := p
    by_cases hk : k = a
    · have hab : ¬a = b := fun h => hne h.symm
      simpa [removeAlbum, List.filter_cons, hk, lookupAlbum, hab] using ih
    · by_cases hkb : k = b
      · subst hkb
        simp [removeAlbum, List.filter_cons, hk, lookupAlbum]
      · simpa [removeAlbum, List.filter_cons, hk, lookupAlbum, hkb] using ih

/-! ## Commit helper lemmas -/

theorem updateAndPushManifest_ok (env : Env) (k : Nat) (tr : List RemoteOp)
    (nm : GithubManifest) (s : String) (msha : Option String)
    (h1 : env.shaAt k = .ok msha) (h2 : env.unitAt (k + 1) = .ok ()) :
    updateAndPushManifest env k tr nm s = .ok nm (k + 2) (tr ++ commitOps nm msha) := by
  cases msha <;> unfold updateAndPushManifest <;> rw [h1, h2] <;> rfl

theorem updateAndPushManifest_ok_value (env : Env) (k : Nat) (tr : List RemoteOp)
    (nm : GithubManifest) (s : String) (m2 : GithubManifest) (k2 : Nat)
    (tr2 : List RemoteOp) (h : updateAndPushManifest env k tr nm s = .ok m2 k2 tr2) :
    m2 = nm := by
  unfold updateAndPushManifest at h
  split at h
  · exact WfResult.noConfusion h
  · split at h
    · exact WfResult.noConfusion h
    · injection h with h1
      exact h1.symm
  · split at h
    · exact WfResult.noConfusion h
    · injection h with h1
      exact h1.symm

theorem updateAndPushManifest_trace_tail (env : Env) (k : Nat) (tr : List RemoteOp)
    (nm : GithubManifest) (s : String) :
    ∃ tail, traceOf (updateAndPushManifest env k tr nm s) = tr ++ tail ∧
      ∀ op ∈ tail, touchesManifestFile op = true := by
  unfold updateAndPushManifest
  cases env.shaAt k with
  | error e =>
    exact ⟨[.getShaOp manifestPath], rfl, by simp [touchesManifestFile]⟩
  | ok msha =>
    cases msha with
    | some sha =>
      cases env.unitAt (k + 1) with
      | error e =>
        exact ⟨[.getShaOp manifestPath, .updateOp manifestPath (.manifestJson nm) sha], rfl,
          by simp [touchesManifestFile]⟩
      | ok u =>
        exact ⟨[.getShaOp manifestPath, .updateOp manifestPath (.manifestJson nm) sha], rfl,
          by simp [touchesManifestFile]⟩
    | none =>
      cases env.unitAt (k + 1) with
      | error e =>
        exact ⟨[.getShaOp manifestPath, .uploadOp manifestPath (.manifestJson nm)], rfl,
          by simp [touchesManifestFile]⟩
      | ok u =>
        exact ⟨[.getShaOp manifestPath, .uploadOp manifestPath (.manifestJson nm)], rfl,
          by simp [touchesManifestFile]⟩

/-! ## deleteImage workflow (claim C4) -/

theorem filter_removes_single_match (pre post : List GithubManifestItem)
    (r : GithubManifestItem) (p : String) (hr : r.path = p)
    (hpre : ∀ x ∈ pre, x.path ≠ p) (hpost : ∀ x ∈ post, x.path ≠ p) :
    (pre ++ r :: post).filter (fun img => img.path != p) = pre ++ post := by
  induction pre with
  | nil =>
    simp only [List.nil_append, List.filter_cons, hr, bne_self_eq_false, Bool.false_eq_true,
      if_false]
    exact List.filter_eq_self.mpr (fun x hx => by simpa using hpost x hx)
  | cons a rest ih =>
    have ha : (a.path != p) = true := by simpa using hpre a (List.mem_cons_self a rest)
    simp only [List.cons_append, List.filter_cons, ha, if_true]
    rw [ih (fun x hx => hpre x (List.mem_cons_of_mem a hx))]

/-- Claim C4: on a manifest whose album holds exactly one record with the
given path, deleteImage removes exactly that record, leaving every other
record of the album untouched and in its original relative order and every
other album unchanged; and when no revision tag resolves for the path (the
blob is absent), it fails with the could-not-find error after the single
sha read. -/
theorem deleteImage_removes_exactly_match (env : Env) (m : GithubManifest)
    (albumName imagePath : String) (pre post : List GithubManifestItem)
    (r : GithubManifestItem) (sha0 : String) (msha : Option String) :
    (lookupAlbum m.albums albumName = some (pre ++ r :: post) →
     r.path = imagePath →
     (∀ x ∈ pre, x.path ≠ imagePath) →
     (∀ x ∈ post, x.path ≠ imagePath) →
     env.shaAt 0 = .ok (some sha0) →
     env.unitAt 1 = .ok () →
     env.shaAt 2 = .ok msha →
     env.unitAt 3 = .ok () →
     handleDeleteImage env true m albumName imagePath =
       .ok { albums := setAlbum m.albums albumName (pre ++ post) } 4
         ([.getShaOp imagePath, .deleteOp imagePath sha0] ++
           commitOps { albums := setAlbum m.albums albumName (pre ++ post) } msha) ∧
     lookupAlbum (setAlbum m.albums albumName (pre ++ post)) albumName = some (pre ++ post) ∧
     (∀ b, b ≠ albumName →
       lookupAlbum (setAlbum m.albums albumName (pre ++ post)) b = lookupAlbum m.albums b)) ∧
    (env.shaAt 0 = .ok none →
     handleDeleteImage env true m albumName imagePath =
       .errored "Could not find file to delete." 1 [.getShaOp imagePath]) := by
  constructor
  · intro hrecs hr hpre hpost hsha hdel hsha2 hwrite
    refine ⟨?_, lookupAlbum_setAlbum_self _ _ _,
      fun b hb => lookupAlbum_setAlbum_other _ _ _ _ hb⟩
    unfold handleDeleteImage
    rw [if_neg (by simp)]
    rw [hsha, hdel, hrecs]
    have hfil := filter_removes_single_match pre post r imagePath hr hpre hpost
    rw [← hfil]
    exact updateAndPushManifest_ok env 2 _ _ _ msha hsha2 hwrite
  · intro hsha
    unfold handleDeleteImage
    rw [if_neg (by simp)]
    rw [hsha]

/-- Witness for C4 at a concrete manifest and oracles: the success branch
removes only the matching record of misc, and the 404 branch surfaces the
could-not-find error. -/
theorem deleteImage_removes_exactly_match_witness :
    handleDeleteImage allOkEnv true miscManifest "misc" "misc/a.jpg" =
      .ok { albums := setAlbum miscManifest.albums "misc" ([] ++ [⟨"misc/b.jpg", "t2"⟩]) } 4
        ([.getShaOp "misc/a.jpg", .deleteOp "misc/a.jpg" "sha0"] ++
          commitOps { albums := setAlbum miscManifest.albums "misc" ([] ++ [⟨"misc/b.jpg", "t2"⟩]) }
            (some "sha0")) ∧
    handleDeleteImage notFoundShaEnv true miscManifest "misc" "misc/a.jpg" =
      .errored "Could not find file to delete." 1 [.getShaOp "misc/a.jpg"] :=
  ⟨((deleteImage_removes_exactly_match allOkEnv miscManifest "misc" "misc/a.jpg"
      [] [⟨"misc/b.jpg", "t2"⟩] ⟨"misc/a.jpg", "t1"⟩ "sha0" (some "sha0")).1
      rfl rfl (by simp) (by decide) rfl rfl rfl rfl).1,
   (deleteImage_removes_exactly_match notFoundShaEnv miscManifest "misc" "misc/a.jpg"
      [] [⟨"misc/b.jpg", "t2"⟩] ⟨"misc/a.jpg", "t1"⟩ "sha0" (some "sha0")).2 rfl⟩

/-! ## renameAlbum workflow (claim C7) -/

theorem renameLoop_ok_value (env : Env) (o s : String) :
    ∀ (images : List GithubManifestItem) (k : Nat) (tr : List RemoteOp)
      (acc entries : List GithubManifestItem) (k2 : Nat) (tr2 : List RemoteOp),
      renameLoop env o s images k tr acc = .ok entries k2 tr2 →
      entries = acc ++ images.map (fun r => ⟨renamePath o s r.path, r.createdAt⟩) := by
  intro images
  induction images with
  | nil =>
    intro k tr acc entries k2 tr2 h
    unfold renameLoop at h
    injection h with h1
    simp [h1]
  | cons img rest ih =>
    intro k tr acc entries k2 tr2 h
    unfold renameLoop at h
    split at h
    · exact WfResult.noConfusion h
    · split at h
      · exact WfResult.noConfusion h
      · split at h
        · exact WfResult.noConfusion h
        · rw [ih _ _ _ _ _ _ h]
          simp
        · split at h
          · exact WfResult.noConfusion h
          · rw [ih _ _ _ _ _ _ h]
            simp

/-- Claim C7: whenever renameAlbum runs to completion on a manifest whose
records under the old album all carry the album path prefix, the resulting
manifest has no key for the old name and holds, under the slug of the new
name, exactly the old records in order with the leading old-album prefix of
each path replaced by the new slug and every createdAt unchanged. -/
theorem renameAlbum_moves_album (env : Env) (m : GithubManifest) (oldName newName : String)
    (m2 : GithubManifest) (k : Nat) (tr : List RemoteOp)
    (hpref : ∀ r ∈ (lookupAlbum m.albums oldName).getD [],
      startsWithChars r.path.data (oldName ++ "/").data = true)
    (hok : handleRenameAlbum env m oldName newName = .ok m2 k tr) :
    lookupAlbum m2.albums oldName = none ∧
    lookupAlbum m2.albums (slugify newName) =
      some (((lookupAlbum m.albums oldName).getD []).map
        (fun r => ⟨slugify newName ++ "/" ++ String.mk (r.path.data.drop (oldName.length + 1)),
          r.createdAt⟩)) := by
  unfold handleRenameAlbum at hok
  split at hok
  · exact WfResult.noConfusion hok
  · rename_i hg
    have hne1 : oldName ≠ slugify newName := by
      intro he
      exact hg (by simp [he])
    cases hloop : renameLoop env oldName (slugify newName)
        ((lookupAlbum m.albums oldName).getD []) 0 [] [] with
    | silent tr3 =>
      rw [hloop] at hok
      exact WfResult.noConfusion hok
    | errored e k3 tr3 =>
      rw [hloop] at hok
      exact WfResult.noConfusion hok
    | ok newEntries k3 tr3 =>
      rw [hloop] at hok
      have hm2 := updateAndPushManifest_ok_value env k3 tr3 _ _ m2 k tr hok
      have hentries := renameLoop_ok_value env oldName (slugify newName) _ 0 [] [] newEntries
        k3 tr3 hloop
      rw [hm2]
      constructor
      · rw [lookupAlbum_setAlbum_other _ _ _ _ hne1, lookupAlbum_removeAlbum_self]
      · rw [lookupAlbum_setAlbum_self, hentries]
        simp only [List.nil_append, Option.some.injEq]
        apply List.map_congr_left
        intro r hr
        have hp := hpref r hr
        have hslash : ("/" : String).data = ['/'] := rfl
        simp only [String.data_append, hslash] at hp
        simp [renamePath, hp]

/-- Witness for C7: renaming misc (two images) to vehicles moves both
records, preserves each createdAt and removes the misc key. -/
theorem renameAlbum_moves_album_witness :
    lookupAlbum
      (GithubManifest.mk [("normal", []),
        ("vehicles", [⟨"vehicles/a.jpg", "t1"⟩, ⟨"vehicles/b.jpg", "t2"⟩])]).albums "misc" =
        none ∧
    lookupAlbum
      (GithubManifest.mk [("normal", []),
        ("vehicles", [⟨"vehicles/a.jpg", "t1"⟩, ⟨"vehicles/b.jpg", "t2"⟩])]).albums
      (slugify "vehicles") =
      some (((lookupAlbum miscManifest.albums "misc").getD []).map
        (fun r => ⟨slugify "vehicles" ++ "/" ++ String.mk (r.path.data.drop ("misc".length + 1)),
          r.createdAt⟩)) :=
  renameAlbum_moves_album allOkEnv miscManifest "misc" "vehicles"
    (GithubManifest.mk [("normal", []),
      ("vehicles", [⟨"vehicles/a.jpg", "t1"⟩, ⟨"vehicles/b.jpg", "t2"⟩])]) 10
    [.readRawOp "misc/a.jpg", .uploadOp "vehicles/a.jpg" (.blob "QUJD"),
     .getShaOp "misc/a.jpg", .deleteOp "misc/a.jpg" "sha0",
     .readRawOp "misc/b.jpg", .uploadOp "vehicles/b.jpg" (.blob "QUJD"),
     .getShaOp "misc/b.jpg", .deleteOp "misc/b.jpg" "sha0",
     .getShaOp manifestPath,
     .updateOp manifestPath
       (.manifestJson (GithubManifest.mk [("normal", []),
         ("vehicles", [⟨"vehicles/a.jpg", "t1"⟩, ⟨"vehicles/b.jpg", "t2"⟩])])) "sha0"]
    (by decide) (by decide)

/-! ## addImages workflow (claim C1) -/

theorem uploadLoop_allOk (env : Env) (clock : Nat → Nat) (iso : Nat → String) :
    ∀ (files : List FileToUpload) (i k : Nat) (tr : List RemoteOp)
      (acc : List (String × List GithubManifestItem)),
      (∀ d, d < files.length → env.unitAt (k + d) = .ok ()) →
      uploadLoop env clock iso files i k tr acc =
        .ok (entriesFor clock iso files i acc) (k + files.length)
          (tr ++ uploadOpsFor clock files i) := by
  intro files
  induction files with
  | nil =>
    intro i k tr acc h
    simp [uploadLoop, entriesFor, uploadOpsFor]
  | cons f rest ih =>
    intro i k tr acc h
    have h0 : env.unitAt k = .ok () := by
      have := h 0 (by simp)
      rwa [Nat.add_zero] at this
    simp only [uploadLoop, h0]
    rw [ih (i + 1) (k + 1) _ _ (fun d hd => by
      have hh := h (d + 1) (by simpa using Nat.succ_lt_succ hd)
      rwa [show k + (d + 1) = k + 1 + d by omega] at hh)]
    simp only [entriesFor, uploadOpsFor, List.append_assoc, List.singleton_append,
      List.length_cons, WfResult.ok.injEq]
    exact ⟨trivial, by omega, trivial⟩

theorem uploadLoop_failAt (env : Env) (clock : Nat → Nat) (iso : Nat → String) (e : String) :
    ∀ (files : List FileToUpload) (j i k : Nat) (tr : List RemoteOp)
      (acc : List (String × List GithubManifestItem)),
      j < files.length →
      (∀ d, d < j → env.unitAt (k + d) = .ok ()) →
      env.unitAt (k + j) = .error e →
      uploadLoop env clock iso files i k tr acc =
        .errored e (k + j + 1) (tr ++ uploadOpsFor clock (files.take (j + 1)) i) := by
  intro files
  induction files with
  | nil =>
    intro j i k tr acc hj
    simp at hj
  | cons f rest ih =>
    intro j i k tr acc hj hok hfail
    cases j with
    | zero =>
      rw [Nat.add_zero] at hfail
      simp only [uploadLoop, hfail]
      simp [uploadOpsFor]
    | succ j2 =>
      have h0 : env.unitAt k = .ok () := by
        have := hok 0 (Nat.succ_pos j2)
        rwa [Nat.add_zero] at this
      simp only [uploadLoop, h0]
      rw [ih j2 (i + 1) (k + 1) _ _ (by simpa using Nat.lt_of_succ_lt_succ hj)
        (fun d hd => by
          have hh := hok (d + 1) (Nat.succ_lt_succ hd)
          rwa [show k + (d + 1) = k + 1 + d by omega] at hh)
        (by rwa [show k + (j2 + 1) = k + 1 + j2 by omega] at hfail)]
      simp only [List.take_succ_cons, uploadOpsFor, List.append_assoc, List.singleton_append,
        WfResult.errored.injEq]
      exact ⟨trivial, by omega, trivial⟩

theorem synthPath_ne_manifestPath (clock : Nat → Nat) (i : Nat) (f : FileToUpload) :
    synthPath clock i f ≠ manifestPath := by
  intro h
  have hd := congrArg String.data h
  have hslash : ("/" : String).data = ['/'] := rfl
  simp only [synthPath, String.data_append, hslash] at hd
  have hmem : '/' ∈ manifestPath.data := by
    rw [← hd]
    simp
  exact absurd hmem (by decide)

theorem uploadOpsFor_no_commit_no_delete (clock : Nat → Nat) :
    ∀ (files : List FileToUpload) (i : Nat) (op : RemoteOp), op ∈ uploadOpsFor clock files i →
      commitsManifest op = false ∧ isDeleteOp op = false := by
  intro files
  induction files with
  | nil =>
    intro i op h
    simp [uploadOpsFor] at h
  | cons f rest ih =>
    intro i op h
    simp only [uploadOpsFor, List.mem_cons] at h
    rcases h with h | h
    · subst h
      refine ⟨?_, rfl⟩
      simp [commitsManifest, synthPath_ne_manifestPath clock i f]
    · exact ih (i + 1) op h

/-- Claim C1: in the addImages workflow every blob is uploaded through
create before the manifest is touched.  If the upload of file j fails, the
run surfaces exactly that error, its trace is the manifest re-read followed
by the uploads of files 0..j and nothing else — in particular no operation
in it commits the manifest file and none deletes a blob, so the error is
propagated, the remaining uploads are aborted, the remote manifest is
untouched and the already uploaded blobs of the batch stay in the store.
When every upload succeeds, the trace is all the creates in batch order
followed only by the commit pair. -/
theorem addImages_abort_on_failed_upload (env : Env) (clock : Nat → Nat)
    (iso : Nat → String) (m : GithubManifest) (files : List FileToUpload) :
    (∀ j e, j < files.length →
      (∀ d, d < j → env.unitAt (1 + d) = .ok ()) →
      env.unitAt (1 + j) = .error e →
      handleUploadComplete env clock iso m files =
        .errored e (1 + j + 1) (.getManifestOp :: uploadOpsFor clock (files.take (j + 1)) 0) ∧
      ∀ op ∈ RemoteOp.getManifestOp :: uploadOpsFor clock (files.take (j + 1)) 0,
        commitsManifest op = false ∧ isDeleteOp op = false) ∧
    ((∀ d, d < files.length → env.unitAt (1 + d) = .ok ()) →
      ∀ msha, env.shaAt (1 + files.length) = .ok msha →
        env.unitAt (1 + files.length + 1) = .ok () →
        handleUploadComplete env clock iso m files =
          .ok (GithubManifest.mk (mergeNewEntries (env.manifestAt 0).albums
                  (entriesFor clock iso files 0 [])))
            (1 + files.length + 2)
            (.getManifestOp :: (uploadOpsFor clock files 0 ++
              commitOps (GithubManifest.mk (mergeNewEntries (env.manifestAt 0).albums
                  (entriesFor clock iso files 0 []))) msha))) := by
  constructor
  · intro j e hj hok hfail
    constructor
    · unfold handleUploadComplete
      rw [uploadLoop_failAt env clock iso e files j 0 1 [.getManifestOp] [] hj hok hfail]
      rfl
    · intro op hop
      rcases List.mem_cons.mp hop with h | h
      · subst h
        exact ⟨rfl, rfl⟩
      · exact uploadOpsFor_no_commit_no_delete clock _ 0 op h
  · intro hok msha hsha hunit
    unfold handleUploadComplete
    rw [uploadLoop_allOk env clock iso files 0 1 [.getManifestOp] [] hok]
    have hc := updateAndPushManifest_ok env (1 + files.length)
      ([.getManifestOp] ++ uploadOpsFor clock files 0)
      (GithubManifest.mk (mergeNewEntries (env.manifestAt 0).albums
        (entriesFor clock iso files 0 [])))
      "Successfully uploaded file(s)!" msha hsha hunit
    exact hc

/-- Witness for C1: a two-file batch whose second upload fails aborts with
that error right after the manifest read and the two creates; the same
batch under an all-success oracle commits only after both creates. -/
theorem addImages_abort_on_failed_upload_witness :
    handleUploadComplete failSecondUploadEnv (fun _ => 100) (fun _ => "t") miscManifest
      [⟨"a.jpg", "AA", "x"⟩, ⟨"b.jpg", "BB", "x"⟩] =
      .errored "boom" 3 (.getManifestOp ::
        uploadOpsFor (fun _ => 100) ([⟨"a.jpg", "AA", "x"⟩, ⟨"b.jpg", "BB", "x"⟩].take 2) 0) ∧
    handleUploadComplete allOkEnv (fun _ => 100) (fun _ => "t") miscManifest
      [⟨"a.jpg", "AA", "x"⟩, ⟨"b.jpg", "BB", "x"⟩] =
      .ok (GithubManifest.mk (mergeNewEntries (allOkEnv.manifestAt 0).albums
            (entriesFor (fun _ => 100) (fun _ => "t")
              [⟨"a.jpg", "AA", "x"⟩, ⟨"b.jpg", "BB", "x"⟩] 0 [])))
        5
        (.getManifestOp ::
          (uploadOpsFor (fun _ => 100) [⟨"a.jpg", "AA", "x"⟩, ⟨"b.jpg", "BB", "x"⟩] 0 ++
            commitOps (GithubManifest.mk (mergeNewEntries (allOkEnv.manifestAt 0).albums
              (entriesFor (fun _ => 100) (fun _ => "t")
                [⟨"a.jpg", "AA", "x"⟩, ⟨"b.jpg", "BB", "x"⟩] 0 []))) (some "sha0"))) :=
  ⟨((addImages_abort_on_failed_upload failSecondUploadEnv (fun _ => 100) (fun _ => "t")
      miscManifest [⟨"a.jpg", "AA", "x"⟩, ⟨"b.jpg", "BB", "x"⟩]).1 1 "boom"
      (by decide)
      (fun d hd => by
        have h0 : d = 0 := by omega
        subst h0
        rfl)
      rfl).1,
   (addImages_abort_on_failed_upload allOkEnv (fun _ => 100) (fun _ => "t")
      miscManifest [⟨"a.jpg", "AA", "x"⟩, ⟨"b.jpg", "BB", "x"⟩]).2
      (fun d hd => rfl) (some "sha0") rfl rfl⟩

/-! ## Decimal numeral lemmas (for claim C3) -/

theorem decChars_lt {n : Nat} (h : n < 10) : decChars n = [Nat.digitChar n] := by
  unfold decChars
  rw [dif_pos h]

theorem decChars_ge {n : Nat} (h : ¬n < 10) :
    decChars n = decChars (n / 10) ++ [Nat.digitChar (n % 10)] := by
  conv_lhs => rw [decChars]
  rw [dif_neg h]

theorem toDigitsCore_eq_decChars :
    ∀ (fuel n : Nat) (acc : List Char), n < fuel →
      Nat.toDigitsCore 10 fuel n acc = decChars n ++ acc := by
  intro fuel
  induction fuel with
  | zero =>
    intro n acc h
    exact absurd h (Nat.not_lt_zero n)
  | succ f ih =>
    intro n acc h
    simp only [Nat.toDigitsCore]
    by_cases h10 : n / 10 = 0
    · have hn : n < 10 := by
        by_contra hge
        have := Nat.div_le_div_right (c := 10) (Nat.le_of_not_lt hge)
        rw [h10] at this
        simp at this
      rw [if_pos h10, decChars_lt hn, Nat.mod_eq_of_lt hn]
      rfl
    · have hge : ¬n < 10 := by
        intro hlt
        exact h10 (Nat.div_eq_of_lt hlt)
      have hpos : 0 < n := by omega
      have hlt2 : n / 10 < f :=
        lt_of_lt_of_le (Nat.div_lt_self hpos (by omega)) (Nat.lt_succ_iff.mp h)
      rw [if_neg h10, ih (n / 10) _ hlt2, decChars_ge hge]
      simp [List.append_assoc]

theorem digitChar_ne_underscore {d : Nat} (h : d < 10) : Nat.digitChar d ≠ '_' := by
  interval_cases d <;> decide

theorem charVal_digitChar {d : Nat} (h : d < 10) : charVal (Nat.digitChar d) = d := by
  interval_cases d <;> decide

theorem underscore_not_mem_decChars (n : Nat) : '_' ∉ decChars n := by
  induction n using Nat.strong_induction_on with
  | _ n ih =>
    by_cases h : n < 10
    · rw [decChars_lt h]
      intro hm
      have := List.mem_singleton.mp hm
      exact digitChar_ne_underscore h this.symm
    · rw [decChars_ge h]
      intro hm
      rcases List.mem_append.mp hm with hm2 | hm2
      · exact ih (n / 10) (Nat.div_lt_self (by omega) (by omega)) hm2
      · have := List.mem_singleton.mp hm2
        exact digitChar_ne_underscore (Nat.mod_lt n (by omega)) this.symm

theorem valOfDigits_append_digit (l : List Char) (c : Char) :
    valOfDigits (l ++ [c]) = valOfDigits l * 10 + charVal c := by
  simp [valOfDigits, List.foldl_append]

theorem valOfDigits_decChars (n : Nat) : valOfDigits (decChars n) = n := by
  induction n using Nat.strong_induction_on with
  | _ n ih =>
    by_cases h : n < 10
    · rw [decChars_lt h]
      simp [valOfDigits, charVal_digitChar h]
    · rw [decChars_ge h, valOfDigits_append_digit,
        ih (n / 10) (Nat.div_lt_self (by omega) (by omega)),
        charVal_digitChar (Nat.mod_lt n (by omega))]
      omega

theorem repr_data_eq_decChars (n : Nat) : (Nat.repr n).data = decChars n := by
  show (Nat.toDigits 10 n).asString.data = decChars n
  rw [Nat.toDigits, toDigitsCore_eq_decChars (n + 1) n [] (Nat.lt_succ_self n)]
  have hs : ∀ l : List Char, (List.asString l).data = l := fun l => rfl
  rw [hs, List.append_nil]

theorem underscore_not_mem_repr (n : Nat) : '_' ∉ (Nat.repr n).data := by
  rw [repr_data_eq_decChars]
  exact underscore_not_mem_decChars n

theorem noUnderscore_append_underscore_inj :
    ∀ (s1 s2 r1 r2 : List Char), '_' ∉ s1 → '_' ∉ s2 →
      s1 ++ '_' :: r1 = s2 ++ '_' :: r2 → s1 = s2 := by
  intro s1
  induction s1 with
  | nil =>
    intro s2 r1 r2 h1 h2 h
    cases s2 with
    | nil => rfl
    | cons c t =>
      simp only [List.nil_append, List.cons_append, List.cons.injEq] at h
      apply absurd _ h2
      rw [← h.1]
      exact List.mem_cons_self '_' t
  | cons c t ih =>
    intro s2 r1 r2 h1 h2 h
    cases s2 with
    | nil =>
      simp only [List.cons_append, List.nil_append, List.cons.injEq] at h
      apply absurd _ h1
      rw [h.1]
      exact List.mem_cons_self '_' t
    | cons c2 t2 =>
      simp only [List.cons_append, List.cons.injEq] at h
      rw [h.1, ih t2 r1 r2 (fun hm => h1 (List.mem_cons_of_mem c hm))
        (fun hm => h2 (List.mem_cons_of_mem c2 hm)) h.2]

/-! ## addImages path synthesis (claim C3) -/

/-- Claim C3: for every batch with a common target album and a real
(non-decreasing) clock, the i-th synthesised path has exactly the shape
album slash slug-of-album, underscore, timestamp, underscore,
slug-of-base-name, dot, extension — with the timestamp `clock i + i`
distinct per file even inside one batch — and the synthesised paths of any
two files of the batch are distinct. -/
theorem addImages_paths_wellformed_and_distinct (clock : Nat → Nat)
    (files : List FileToUpload) (targetAlbum : String)
    (huni : ∀ f ∈ files, f.albumName = targetAlbum)
    (hmono : ∀ i j : Nat, i ≤ j → clock i ≤ clock j) :
    (∀ i fi, files.get? i = some fi →
      synthPath clock i fi = targetAlbum ++ "/" ++ (slugify targetAlbum ++ "_" ++
        Nat.repr (clock i + i) ++ "_" ++ slugify (getFileNameParts fi.name).name ++ "." ++
        (getFileNameParts fi.name).extension)) ∧
    (∀ i j fi fj, i < j → files.get? i = some fi → files.get? j = some fj →
      synthPath clock i fi ≠ synthPath clock j fj) := by
  constructor
  · intro i fi hget
    rw [synthPath, synthFileName, huni fi (List.get?_mem hget)]
  · intro i j fi fj hij hgi hgj heq
    have hai : fi.albumName = targetAlbum := huni fi (List.get?_mem hgi)
    have haj : fj.albumName = targetAlbum := huni fj (List.get?_mem hgj)
    have hts : clock i + i ≠ clock j + j := by
      have := hmono i j (le_of_lt hij)
      omega
    apply hts
    have hd := congrArg String.data heq
    have hu : ("_" : String).data = ['_'] := rfl
    have hsl : ("/" : String).data = ['/'] := rfl
    have hdot : ("." : String).data = ['.'] := rfl
    simp only [synthPath, synthFileName, hai, haj, String.data_append, hu, hsl, hdot,
      List.append_assoc, List.singleton_append, List.cons_append, List.nil_append] at hd
    have h1 := List.append_cancel_left hd
    injection h1 with h1a h2
    have h3 := List.append_cancel_left h2
    injection h3 with h3a h4
    have h5 := noUnderscore_append_underscore_inj _ _ _ _
      (underscore_not_mem_repr (clock i + i)) (underscore_not_mem_repr (clock j + j)) h4
    rw [repr_data_eq_decChars, repr_data_eq_decChars] at h5
    have h6 := congrArg valOfDigits h5
    rwa [valOfDigits_decChars, valOfDigits_decChars] at h6

/-- Witness for C3: two same-album files at a constant clock get paths of
the documented shape that differ in the timestamp component. -/
theorem addImages_paths_wellformed_and_distinct_witness :
    synthPath (fun _ => 100) 0 ⟨"a.jpg", "AA", "x"⟩ =
      "x" ++ "/" ++ (slugify "x" ++ "_" ++ Nat.repr 100 ++ "_" ++
        slugify (getFileNameParts "a.jpg").name ++ "." ++
        (getFileNameParts "a.jpg").extension) ∧
    synthPath (fun _ => 100) 0 ⟨"a.jpg", "AA", "x"⟩ ≠
      synthPath (fun _ => 100) 1 ⟨"b.jpg", "BB", "x"⟩ :=
  ⟨(addImages_paths_wellformed_and_distinct (fun _ => 100)
      [⟨"a.jpg", "AA", "x"⟩, ⟨"b.jpg", "BB", "x"⟩] "x" (by decide)
      (fun i j h => le_refl 100)).1 0 ⟨"a.jpg", "AA", "x"⟩ rfl,
   (addImages_paths_wellformed_and_distinct (fun _ => 100)
      [⟨"a.jpg", "AA", "x"⟩, ⟨"b.jpg", "BB", "x"⟩] "x" (by decide)
      (fun i j h => le_refl 100)).2 0 1 ⟨"a.jpg", "AA", "x"⟩ ⟨"b.jpg", "BB", "x"⟩
      (by decide) rfl rfl⟩
